import Mathlib

/-!
Verification of the `durable-objects-sql-tag` core: the recursive SQL
fragment flattener (`sql` tagged template, `sql.join` / `sql.list`), the
value-type handling of parameters, the row-cardinality query helpers, and
the linear schema-migration engine of `db-wrapper.ts`.

The embedding follows the TypeScript source:
  * `Prim` embeds the `Primitive` input union
    (`string | number | boolean | null | undefined | ArrayBuffer | Uint8Array`);
    an `ArrayBuffer` is a byte list, a `Uint8Array` is an offset/length view
    over a backing byte list.
  * `SqlValue` embeds a template slot: a `Primitive` or a nested fragment
    (its `templateStrings` and `templateValues` fields).
  * `expandWalk`/`expandPairs` embed the nested `expand` loop of
    `expandTemplate`: the loop appends `templateStrings[0]`, then for each
    further template string first handles `templateValues[i-1]` (splicing a
    nested fragment recursively, or emitting `"?"` and pushing the raw value)
    and then appends the string.  A missing value (index out of range, which
    in JavaScript reads as `undefined`) fails the duck-typed fragment test
    and is pushed as the `undefined` primitive.
-/

namespace SqlTag

/-- Embedding of the `Primitive` input union of `sql-tag.ts`. -/
inductive Prim where
  | str (s : String)
  | num (n : Int)
  | bool (b : Bool)
  | nullv
  | undef
  | bytesBuf (data : List Nat)
  | bytesView (backing : List Nat) (off : Nat) (len : Nat)
deriving DecidableEq, Repr

/-- A template slot: a scalar `Primitive` or a nested fragment, carrying the
nested fragment's `templateStrings` and `templateValues`. -/
inductive SqlValue where
  | prim (p : Prim)
  | frag (strings : List String) (values : List SqlValue)

/-- Embedding of the `PreparedStatement` interface: `query` plus optional
`values` (the source returns `undefined` instead of an empty array). -/
structure PreparedStatement where
  query : String
  values : Option (List Prim)
deriving DecidableEq, Repr

mutual

/-- The `expand` loop of `expandTemplate` over a whole template: emit
`templateStrings[0]` and then walk the remaining strings in lockstep with the
values. -/
def expandWalk : List String → List SqlValue → String × List Prim
  | [], _ => ("", [])
  | s0 :: rest, vals =>
      let t := expandPairs rest vals
      (s0 ++ t.1, t.2)

/-- One iteration per remaining template string: handle `templateValues[i-1]`
(nested fragment → recursive splice; otherwise `"?"` plus the raw value, an
out-of-range read being JavaScript `undefined`), then append the string. -/
def expandPairs : List String → List SqlValue → String × List Prim
  | [], _ => ("", [])
  | s :: srest, [] =>
      let t := expandPairs srest []
      ("?" ++ s ++ t.1, Prim.undef :: t.2)
  | s :: srest, SqlValue.prim p :: vrest =>
      let t := expandPairs srest vrest
      ("?" ++ s ++ t.1, p :: t.2)
  | s :: srest, SqlValue.frag fs fv :: vrest =>
      let inner := expandWalk fs fv
      let t := expandPairs srest vrest
      (inner.1 ++ s ++ t.1, inner.2 ++ t.2)

end

/-- `expandTemplate` of `sql-tag.ts`: run the expansion and wrap the result,
returning `values: undefined` when no parameter was collected. -/
def expandTemplate (strings : List String) (values : List SqlValue) : PreparedStatement :=
  let r := expandWalk strings values
  { query := r.1, values := if r.2.length > 0 then some r.2 else none }

/-- The parameter list actually carried by a built statement (an absent
`values` field meaning no parameters). -/
def paramList (ps : PreparedStatement) : List Prim := ps.values.getD []

/-- Template strings built by `sql.join` for a non-empty input:
`["", ", ", …, ", ", ""]` with `k - 1` separators. -/
def joinTemplateStrings (values : List Prim) : List String :=
  "" :: (List.replicate (values.length - 1) ", " ++ [""])

/-- `sql.join(values).build()`: the empty input is special-cased to the
never-matching literal `NULL` (with no `values` field); otherwise the join
template is expanded with the values as scalar slots. -/
def sqlJoin (values : List Prim) : PreparedStatement :=
  if values.length = 0 then { query := "NULL", values := none }
  else expandTemplate (joinTemplateStrings values) (values.map SqlValue.prim)

/-- Template strings built by `sql.list` for a non-empty input:
`["(", ", ", …, ", ", ")"]` with `k - 1` separators. -/
def listTemplateStrings (values : List Prim) : List String :=
  "(" :: (List.replicate (values.length - 1) ", " ++ [")"])

/-- `sql.list(values).build()`: the empty input is special-cased to the
never-matching literal `(NULL)` (with an explicitly empty `values` array);
otherwise the list template is expanded with the values as scalar slots. -/
def sqlList (values : List Prim) : PreparedStatement :=
  if values.length = 0 then { query := "(NULL)", values := some [] }
  else expandTemplate (listTemplateStrings values) (values.map SqlValue.prim)

mutual

/-- Well-formedness of a slot: any nested fragment satisfies the tagged
template invariant `templateStrings.length = templateValues.length + 1`. -/
def wfV : SqlValue → Bool
  | SqlValue.prim _ => true
  | SqlValue.frag s vs => (s.length == vs.length + 1) && wfL vs

/-- Well-formedness of a slot list. -/
def wfL : List SqlValue → Bool
  | [] => true
  | v :: rest => wfV v && wfL rest

end

/-- Well-formedness of a whole template. -/
def wfT (strings : List String) (values : List SqlValue) : Bool :=
  (strings.length == values.length + 1) && wfL values

mutual

/-- The scalar (non-fragment) parameter slots below one slot, in depth-first
left-to-right order. -/
def scalarsV : SqlValue → List Prim
  | SqlValue.prim p => [p]
  | SqlValue.frag _ vs => scalarsL vs

/-- The scalar parameter slots of a slot list, depth-first left-to-right. -/
def scalarsL : List SqlValue → List Prim
  | [] => []
  | v :: rest => scalarsV v ++ scalarsL rest

end

/-- None of the listed literal segments contains the character `?`. -/
def noQS (strings : List String) : Bool :=
  strings.all (fun str => str.data.all (fun c => c != '?'))

mutual

/-- No literal segment below this slot contains the character `?`. -/
def noQV : SqlValue → Bool
  | SqlValue.prim _ => true
  | SqlValue.frag s vs => noQS s && noQL vs

/-- No literal segment below this slot list contains `?`. -/
def noQL : List SqlValue → Bool
  | [] => true
  | v :: rest => noQV v && noQL rest

end

/-- No literal segment of the whole template contains `?`. -/
def noQT (strings : List String) (values : List SqlValue) : Bool :=
  noQS strings && noQL values

/-- Number of `?` characters in a string. -/
def qmarks (s : String) : Nat := s.data.count '?'

/-- Does `p` stand at the front of `l`? -/
def leadsWith : List Char → List Char → Bool
  | [], _ => true
  | _ :: _, [] => false
  | p :: ps, c :: cs => (p == c) && leadsWith ps cs

/-- Number of positions of `l` at which the pattern `p` starts. -/
def countAt (p : List Char) : List Char → Nat
  | [] => 0
  | c :: cs => (if leadsWith p (c :: cs) then 1 else 0) + countAt p cs

/-- Number of occurrences of the separator `", "` in a string. -/
def sepCount (s : String) : Nat := countAt [',', ' '] s.data

/-- Does the pattern `p` occur anywhere in `l`? -/
def occursIn (p : List Char) : List Char → Bool
  | [] => leadsWith p []
  | c :: cs => leadsWith p (c :: cs) || occursIn p cs

/-- The query text `sql.join` produces for `k + 1` values, followed by a
final literal `f`: one `?` per value with `", "` between consecutive ones. -/
def joinTailStr (f : String) : Nat → String
  | 0 => "?" ++ f
  | k + 1 => "?" ++ ", " ++ joinTailStr f k

/-- Character-level form of `joinTailStr`. -/
def jtChars (fl : List Char) : Nat → List Char
  | 0 => '?' :: fl
  | k + 1 => '?' :: ',' :: ' ' :: jtChars fl k

/-- Modelled from the spec: the `ValueCoercer` table of section 4.2 of the
specification (strings and numbers unchanged, `true`/`false` to the strings
`"true"`/`"false"`, `null` and absent to `null`, an offset/length byte view
to a byte buffer holding exactly the addressed bytes).  No such function
exists in the source; it is stated here to compare the spec's claimed
flatten-time coercion against what `expandTemplate` actually produces. -/
def coerceSpec : Prim → Prim
  | Prim.str s => Prim.str s
  | Prim.num n => Prim.num n
  | Prim.bool true => Prim.str "true"
  | Prim.bool false => Prim.str "false"
  | Prim.nullv => Prim.nullv
  | Prim.undef => Prim.nullv
  | Prim.bytesBuf data => Prim.bytesBuf data
  | Prim.bytesView backing off len => Prim.bytesBuf ((backing.drop off).take len)

end SqlTag

/-!
Embedding of `db-wrapper.ts`.

The host `SqlStorage` state that the wrapper's migration machinery reads and
writes is the generic `metadata` relation: whether the table exists
(`CREATE TABLE IF NOT EXISTS` creates it lazily) and the value stored under
the key `"schema_version"`.  Migration hooks (`beforeMigrate` / `migrate`)
and the row mapper of a `MappedSqlQueryFragment` are host-supplied functions
that may throw; a hook is embedded by its observable outcome (success or the
raised error), and the run records an event trace: which hooks were invoked,
in which order, and which versions were persisted.  Hook side effects on
application tables are outside the modelled metadata state.
-/

namespace DbWrapper

open SqlTag

/-- A value stored in the `metadata` relation's `ANY` column, as returned by
a `SELECT` (`SqlStorageValue`: string, number, null or `ArrayBuffer`). -/
inductive MetaValue where
  | num (n : Nat)
  | str (s : String)
  | nullv
  | blob (data : List Nat)
deriving DecidableEq, Repr

/-- JavaScript `typeof` of a selected metadata value (`typeof null` and
`typeof ArrayBuffer` are both `"object"`). -/
def metaTypeof : MetaValue → String
  | MetaValue.num _ => "number"
  | MetaValue.str _ => "string"
  | MetaValue.nullv => "object"
  | MetaValue.blob _ => "object"

/-- JavaScript string conversion of a selected metadata value, as used by the
template literal in the `Invalid schema_version` error message. -/
def metaShow : MetaValue → String
  | MetaValue.num n => toString n
  | MetaValue.str s => s
  | MetaValue.nullv => "null"
  | MetaValue.blob _ => "[object ArrayBuffer]"

/-- Is the selected value a JavaScript number? -/
def metaIsNum : MetaValue → Bool
  | MetaValue.num _ => true
  | _ => false

/-- The storage state seen by the schema-version machinery: whether the
`metadata` table exists, and the row stored under key `"schema_version"`
(`none` = no such row). -/
structure MetaStore where
  hasTable : Bool
  row : Option MetaValue
deriving DecidableEq, Repr

/-- Effect of `CREATE TABLE IF NOT EXISTS metadata …`: a no-op when the table
exists, otherwise a fresh empty table. -/
def ensureTable (st : MetaStore) : MetaStore :=
  if st.hasTable then st else { hasTable := true, row := none }

/-- The `Invalid schema_version` error message of `getSchemaVersion`. -/
def invalidVersionMsg (v : MetaValue) : String :=
  "Invalid schema_version: " ++ metaShow v ++ " (" ++ metaTypeof v ++ ")"

/-- `getSchemaVersion` of `db-wrapper.ts`: bootstrap the `metadata` table,
select the `"schema_version"` row, raise on a non-number value, and default
to `0` when the row is absent.  Returns the storage state after the
bootstrap together with the outcome. -/
def getSchemaVersion (st : MetaStore) : MetaStore × Except String Nat :=
  let st1 := ensureTable st
  (st1,
    match st1.row with
    | none => Except.ok 0
    | some (MetaValue.num n) => Except.ok n
    | some v => Except.error (invalidVersionMsg v))

/-- Outcome of running a host-supplied hook: it returns, or it raises. -/
inductive HookResult where
  | ok
  | fail (msg : String)
deriving DecidableEq, Repr

/-- A `MigrationVersionDefinition`: a name, an optional `beforeMigrate` hook
and the `migrate` hook, each embedded by its outcome when invoked. -/
structure Step where
  name : String
  beforeMigrate : Option HookResult
  migrate : HookResult
deriving DecidableEq, Repr

/-- Observable events of a migration run, in invocation order. -/
inductive Event where
  | beforeMigrationHook (pending : List Step)
  | beforeMigrateRun (name : String)
  | migrateRun (name : String)
  | persist (version : Nat)
deriving DecidableEq, Repr

/-- Effect of the upsert
`INSERT INTO metadata (key, value) VALUES ("schema_version", target)
ON CONFLICT(key) DO UPDATE SET value = target`:
the row is inserted or overwritten with the number `target`. -/
def persistVersion (st : MetaStore) (target : Nat) : MetaStore :=
  { hasTable := st.hasTable, row := some (MetaValue.num target) }

/-- The `for` loop of `migrateDatabase`, from index `version` up to
`versions.length`: run `beforeMigrate` when present, then `migrate`, then
persist `version + 1`; a raising hook aborts the loop with its error and
without further persists.  Returns the event trace, the final metadata state
and the raised error, if any. -/
def runFrom (versions : List Step) (st : MetaStore) (version : Nat) :
    List Event × MetaStore × Option String :=
  if h : version < versions.length then
    let defn := versions.get ⟨version, h⟩
    let target := version + 1
    match defn.beforeMigrate with
    | some (HookResult.fail e) => ([Event.beforeMigrateRun defn.name], st, some e)
    | some HookResult.ok =>
        match defn.migrate with
        | HookResult.fail e =>
            ([Event.beforeMigrateRun defn.name, Event.migrateRun defn.name], st, some e)
        | HookResult.ok =>
            let st' := persistVersion st target
            let rest := runFrom versions st' (version + 1)
            (Event.beforeMigrateRun defn.name :: Event.migrateRun defn.name ::
              Event.persist target :: rest.1, rest.2)
    | none =>
        match defn.migrate with
        | HookResult.fail e => ([Event.migrateRun defn.name], st, some e)
        | HookResult.ok =>
            let st' := persistVersion st target
            let rest := runFrom versions st' (version + 1)
            (Event.migrateRun defn.name :: Event.persist target :: rest.1, rest.2)
  else ([], st, none)
termination_by versions.length - version

/-- `migrateDatabase` of `db-wrapper.ts`: read the schema version (raising on
an invalid stored value), return early when it already equals the step
count, otherwise compute `versions.slice(initialVersion, versions.length)`,
invoke the optional `beforeMigration` observer with that slice, and run the
migration loop. -/
def migrateDatabase (st : MetaStore) (versions : List Step) :
    List Event × MetaStore × Option String :=
  let r := getSchemaVersion st
  match r.2 with
  | Except.error e => ([], r.1, some e)
  | Except.ok initialVersion =>
      if initialVersion = versions.length then ([], r.1, none)
      else
        let migrationsToApply := versions.drop initialVersion
        let rest := runFrom versions r.1 initialVersion
        (Event.beforeMigrationHook migrationsToApply :: rest.1, rest.2)

/-- Result record of `getMigrationStatus`. -/
structure MigrationStatus where
  currentVersion : Nat
  targetVersion : Nat
  migrationsToApply : List Step
deriving DecidableEq, Repr

/-- `getMigrationStatus` of `db-wrapper.ts`: read the schema version (this
bootstraps the `metadata` table) and report current version, target version
(the configured step count) and the pending slice.  Returns the storage
state after the read alongside the outcome. -/
def getMigrationStatus (st : MetaStore) (migrations : List Step) :
    MetaStore × Except String MigrationStatus :=
  let r := getSchemaVersion st
  match r.2 with
  | Except.error e => (r.1, Except.error e)
  | Except.ok currentVersion =>
      (r.1, Except.ok
        { currentVersion := currentVersion
          targetVersion := migrations.length
          migrationsToApply := migrations.drop currentVersion })

/-- JavaScript `Array.map` with a possibly-throwing callback: applications
run left to right and the first raised error propagates. -/
def mapRows (m : α → Except String β) : List α → Except String (List β)
  | [] => Except.ok []
  | r :: rest =>
      match m r with
      | Except.error e => Except.error e
      | Except.ok r' =>
          match mapRows m rest with
          | Except.error e => Except.error e
          | Except.ok rs => Except.ok (r' :: rs)

/-- `queryCommon` of `createWrapper`: execute the statement (the raw rows `R`
are given), then apply the row mapper, when one is attached, to every row
before returning. -/
def queryCommon (mapper : Option (α → Except String α)) (rows : List α) :
    Except String (List α) :=
  match mapper with
  | none => Except.ok rows
  | some m => mapRows m rows

/-- `queryNone`: raise unless the returned row list is empty. -/
def queryNone (mapper : Option (α → Except String α)) (rows : List α) :
    Except String Unit :=
  match queryCommon mapper rows with
  | Except.error e => Except.error e
  | Except.ok rs =>
      if rs.length > 0 then Except.error ("Expected no rows, got " ++ toString rs.length)
      else Except.ok ()

/-- `queryNoneOrOne`: raise on two or more rows, otherwise the row or `null`. -/
def queryNoneOrOne (mapper : Option (α → Except String α)) (rows : List α) :
    Except String (Option α) :=
  match queryCommon mapper rows with
  | Except.error e => Except.error e
  | Except.ok rs =>
      if rs.length > 1 then
        Except.error ("Expected at most one row, got " ++ toString rs.length)
      else Except.ok (if rs.length = 1 then rs.head? else none)

/-- `queryOne`: raise unless exactly one row was returned. -/
def queryOne (mapper : Option (α → Except String α)) (rows : List α) :
    Except String α :=
  match queryCommon mapper rows with
  | Except.error e => Except.error e
  | Except.ok rs =>
      match rs with
      | [r] => Except.ok r
      | _ => Except.error ("Expected one row, got " ++ toString rs.length)

/-- `queryMany`: return the rows unchanged (after the mapper, when present). -/
def queryMany (mapper : Option (α → Except String α)) (rows : List α) :
    Except String (List α) :=
  queryCommon mapper rows

/-- Modelled from the spec: the exactly-one shape as section 4.4 of the
specification describes it, with the row mapper applied strictly after the
cardinality check succeeds (so a mapper is never applied when the check
fails).  No such ordering exists in the source, where `queryCommon` maps the
rows before any check; this definition is stated to compare the two. -/
def queryOneSpecOrder (mapper : Option (α → Except String α)) (rows : List α) :
    Except String α :=
  match rows with
  | [r] =>
      match mapper with
      | none => Except.ok r
      | some m => m r
  | _ => Except.error ("Expected one row, got " ++ toString rows.length)

/-- A step none of whose hooks raises: `beforeMigrate` is absent or returns,
and `migrate` returns. -/
def stepOk (s : Step) : Bool :=
  (match s.beforeMigrate with
   | some (HookResult.fail _) => false
   | _ => true) &&
  (match s.migrate with
   | HookResult.ok => true
   | HookResult.fail _ => false)

/-- Does an optional `beforeMigrate` hook run without raising? -/
def hookPasses : Option HookResult → Bool
  | none => true
  | some HookResult.ok => true
  | some (HookResult.fail _) => false

/-- Step `s` raises the error `e`: either its `beforeMigrate` hook raises
`e`, or `beforeMigrate` passes (or is absent) and `migrate` raises `e`. -/
def stepFails (s : Step) (e : String) : Prop :=
  s.beforeMigrate = some (HookResult.fail e) ∨
  (hookPasses s.beforeMigrate = true ∧ s.migrate = HookResult.fail e)

/-- The events of one fully completed step persisting version `target`:
`beforeMigrate` when present, then `migrate`, then the persist. -/
def stepTrace (s : Step) (target : Nat) : List Event :=
  (match s.beforeMigrate with
   | none => []
   | some _ => [Event.beforeMigrateRun s.name]) ++
  [Event.migrateRun s.name, Event.persist target]

/-- The events of fully completing the listed steps in order, the first one
being at 0-based index `v` (so it persists version `v + 1`). -/
def stepsTrace (steps : List Step) (v : Nat) : List Event :=
  match steps with
  | [] => []
  | s :: rest => stepTrace s (v + 1) ++ stepsTrace rest (v + 1)

/-- The events of a step that raises before completing: the hooks invoked up
to and including the raising one, and no persist. -/
def failTrace (s : Step) : List Event :=
  match s.beforeMigrate with
  | some (HookResult.fail _) => [Event.beforeMigrateRun s.name]
  | some HookResult.ok => [Event.beforeMigrateRun s.name, Event.migrateRun s.name]
  | none => [Event.migrateRun s.name]

/-- Is an event an invocation of the `beforeMigration` observer? -/
def isObserverEvent : Event → Bool
  | Event.beforeMigrationHook _ => true
  | _ => false

end DbWrapper

/-! Supporting lemmas about the flattener. -/

namespace SqlTag

/-- The parameters a built statement carries are exactly the list collected
by the expansion (whether or not the source wrapped it in `undefined`). -/
theorem paramList_expandTemplate (ss : List String) (vs : List SqlValue) :
    paramList (expandTemplate ss vs) = (expandWalk ss vs).2 := by
  unfold expandTemplate paramList
  cases h : (expandWalk ss vs).2 <;> simp [h]

/-- `?`-counting distributes over string concatenation. -/
theorem qmarks_append (s t : String) : qmarks (s ++ t) = qmarks s + qmarks t := by
  simp [qmarks, String.data_append, List.count_append]

/-- A string whose characters avoid `?` has no placeholder. -/
theorem qmarks_zero (s : String) (h : (s.data.all fun c => c != '?') = true) :
    qmarks s = 0 := by
  simp only [List.all_eq_true] at h
  refine List.count_eq_zero.mpr fun hm => ?_
  have := h '?' hm
  simp at this

mutual

/-- Expanding a well-formed template collects exactly the depth-first scalar
slots as parameters, and (when no literal segment contains `?`) emits one
`?` per scalar slot. -/
theorem expandWalk_spec (ss : List String) (vs : List SqlValue)
    (hwf : wfT ss vs = true) :
    (expandWalk ss vs).2 = scalarsL vs ∧
    (noQT ss vs = true → qmarks (expandWalk ss vs).1 = (scalarsL vs).length) := by
  match ss, vs with
  | [], vs =>
      exfalso
      simp [wfT] at hwf
  | s0 :: rest, vs =>
      simp only [wfT, List.length_cons, Bool.and_eq_true, beq_iff_eq] at hwf
      have hp := expandPairs_spec rest vs (by omega) hwf.2
      refine ⟨?_, ?_⟩
      · simpa [expandWalk] using hp.1
      · intro hq
        simp only [noQT, noQS, List.all_cons, Bool.and_eq_true] at hq
        have h0 : qmarks s0 = 0 := qmarks_zero s0 hq.1.1
        have := hp.2 (by simp [noQS, hq.1.2]) hq.2
        simp [expandWalk, qmarks_append, h0, this]
termination_by sizeOf ss + sizeOf vs

/-- Pairwise expansion form of `expandWalk_spec`, for the remaining template
strings walked in lockstep with the slots. -/
theorem expandPairs_spec (ss : List String) (vs : List SqlValue)
    (hlen : ss.length = vs.length) (hwf : wfL vs = true) :
    (expandPairs ss vs).2 = scalarsL vs ∧
    (noQS ss = true → noQL vs = true →
       qmarks (expandPairs ss vs).1 = (scalarsL vs).length) := by
  match ss, vs with
  | [], [] => simp [expandPairs, scalarsL, qmarks]
  | [], v :: vrest => simp at hlen
  | s :: srest, [] => simp at hlen
  | s :: srest, SqlValue.prim p :: vrest =>
      simp only [wfL, wfV, Bool.and_eq_true, Bool.true_and] at hwf
      have ih := expandPairs_spec srest vrest (by simpa using hlen) hwf
      refine ⟨?_, ?_⟩
      · simpa [expandPairs, scalarsL, scalarsV] using ih.1
      · intro hs hv
        simp only [noQS, List.all_cons, Bool.and_eq_true] at hs
        simp only [noQL, noQV, Bool.true_and] at hv
        have h0 : qmarks s = 0 := qmarks_zero s hs.1
        have hq : qmarks "?" = 1 := rfl
        have := ih.2 (by simp [noQS, hs.2]) hv
        simp [expandPairs, scalarsL, scalarsV, qmarks_append, h0, hq, this]
        omega
  | s :: srest, SqlValue.frag fs fv :: vrest =>
      simp only [wfL, wfV, Bool.and_eq_true, beq_iff_eq] at hwf
      have hwt : wfT fs fv = true := by
        simp [wfT, hwf.1.1, hwf.1.2]
      have iw := expandWalk_spec fs fv hwt
      have ih := expandPairs_spec srest vrest (by simpa using hlen) hwf.2
      refine ⟨?_, ?_⟩
      · simp [expandPairs, scalarsL, scalarsV, iw.1, ih.1]
      · intro hs hv
        simp only [noQS, List.all_cons, Bool.and_eq_true] at hs
        simp only [noQL, noQV, noQS, Bool.and_eq_true] at hv
        have h0 : qmarks s = 0 := qmarks_zero s hs.1
        have hinner := iw.2 (by simp [noQT, noQS, hv.1.1, hv.1.2])
        have := ih.2 (by simp [noQS, hs.2]) hv.2
        simp [expandPairs, scalarsL, scalarsV, qmarks_append, h0, hinner, this, iw.1, ih.1]
termination_by sizeOf ss + sizeOf vs

end

/-- Expanding the separator template built by `sql.join`/`sql.list` (final
literal `f`) yields one `?` per value with `", "` between consecutives. -/
theorem expandPairs_join (f : String) (vs : List Prim) : ∀ (v : Prim),
    expandPairs (List.replicate vs.length ", " ++ [f])
        (SqlValue.prim v :: vs.map SqlValue.prim)
      = (joinTailStr f vs.length, v :: vs) := by
  induction vs with
  | nil =>
      intro v
      simp [expandPairs, joinTailStr]
  | cons w ws ih =>
      intro v
      simp only [List.length_cons, List.replicate_succ, List.cons_append, List.map_cons,
        expandPairs, joinTailStr]
      rw [ih w]

/-- Character-level form of the join query text. -/
theorem joinTailStr_data (f : String) : ∀ (k : Nat),
    (joinTailStr f k).data = jtChars f.data k := by
  intro k
  induction k with
  | zero => simp [joinTailStr, jtChars, String.data_append]
  | succ n ih => simp [joinTailStr, jtChars, String.data_append, ih]

/-- The join query text for `k + 1` values holds `k + 1` placeholders plus
whatever the final literal holds. -/
theorem count_jtChars (fl : List Char) : ∀ (k : Nat),
    (jtChars fl k).count '?' = k + 1 + fl.count '?' := by
  intro k
  induction k with
  | zero => simp [jtChars, List.count_cons]; omega
  | succ n ih => simp [jtChars, List.count_cons, ih]; omega

/-- The join query text for `k + 1` values holds exactly `k` separators plus
whatever the final literal holds. -/
theorem countAt_jtChars (fl : List Char) : ∀ (k : Nat),
    countAt [',', ' '] (jtChars fl k) = k + countAt [',', ' '] fl := by
  intro k
  induction k with
  | zero => simp [jtChars, countAt, leadsWith]
  | succ n ih => simp [jtChars, countAt, leadsWith, ih]; omega

theorem qmarks_empty : qmarks "" = 0 := rfl

theorem data_empty : ("" : String).data = [] := rfl

theorem data_lparen : ("(" : String).data = ['('] := rfl

/-- `sql.join` on a non-empty input builds the separator query and carries
the values in input order. -/
theorem sqlJoin_cons (v : Prim) (vs : List Prim) :
    sqlJoin (v :: vs)
      = { query := "" ++ joinTailStr "" vs.length, values := some (v :: vs) } := by
  have h := expandPairs_join "" vs v
  simp [sqlJoin, joinTemplateStrings, expandTemplate, expandWalk, h]

/-- `sql.list` on a non-empty input builds the parenthesised separator query
and carries the values in input order. -/
theorem sqlList_cons (v : Prim) (vs : List Prim) :
    sqlList (v :: vs)
      = { query := "(" ++ joinTailStr ")" vs.length, values := some (v :: vs) } := by
  have h := expandPairs_join ")" vs v
  simp [sqlList, listTemplateStrings, expandTemplate, expandWalk, h]

theorem qmarks_joinTail (f : String) (k : Nat) :
    qmarks (joinTailStr f k) = k + 1 + f.data.count '?' := by
  simp [qmarks, joinTailStr_data, count_jtChars]

theorem sepCount_joinTail (f : String) (k : Nat) :
    sepCount (joinTailStr f k) = k + countAt [',', ' '] f.data := by
  simp [sepCount, joinTailStr_data, countAt_jtChars]

/-- C1: expanding a well-formed fragment tree yields a statement whose
parameter list is exactly the depth-first left-to-right list of scalar
slots; when no literal segment contains a `?` of its own, the query text
carries exactly one `?` placeholder per scalar slot (so placeholder `i`
corresponds to parameter `i`); and a nested-fragment slot is spliced in
place — its expanded text and parameters are inlined between the enclosing
literal segments, not parameterized. -/
theorem claim_flatten_placeholder_correspondence :
    (∀ (ss : List String) (vs : List SqlValue), wfT ss vs = true →
       paramList (expandTemplate ss vs) = scalarsL vs ∧
       (noQT ss vs = true →
          qmarks (expandTemplate ss vs).query = (scalarsL vs).length ∧
          qmarks (expandTemplate ss vs).query
            = (paramList (expandTemplate ss vs)).length)) ∧
    (∀ (a b : String) (fs : List String) (fv : List SqlValue),
       expandWalk [a, b] [SqlValue.frag fs fv] =
         (a ++ (expandWalk fs fv).1 ++ b, (expandWalk fs fv).2)) := by
  constructor
  · intro ss vs hwf
    have h := expandWalk_spec ss vs hwf
    have hp : paramList (expandTemplate ss vs) = scalarsL vs := by
      rw [paramList_expandTemplate]; exact h.1
    refine ⟨hp, fun hq => ?_⟩
    have hqm : qmarks (expandTemplate ss vs).query = (scalarsL vs).length := by
      simpa [expandTemplate] using h.2 hq
    exact ⟨hqm, by rw [hqm, hp]⟩
  · intro a b fs fv
    simp [expandWalk, expandPairs, String.append_assoc]

/-- Witness for C1 at the spec's own example `sql`A ${sql`B ${1}`} C``. -/
theorem claim_flatten_placeholder_correspondence_witness :
    paramList (expandTemplate ["A ", " C"]
        [SqlValue.frag ["B ", ""] [SqlValue.prim (Prim.num 1)]])
      = scalarsL [SqlValue.frag ["B ", ""] [SqlValue.prim (Prim.num 1)]] ∧
    qmarks (expandTemplate ["A ", " C"]
        [SqlValue.frag ["B ", ""] [SqlValue.prim (Prim.num 1)]]).query
      = (scalarsL [SqlValue.frag ["B ", ""] [SqlValue.prim (Prim.num 1)]]).length := by
  have h := claim_flatten_placeholder_correspondence.1
    ["A ", " C"] [SqlValue.frag ["B ", ""] [SqlValue.prim (Prim.num 1)]]
    (by simp [wfT, wfL, wfV])
  refine ⟨h.1, (h.2 ?_).1⟩
  simp [noQT, noQL, noQV]
  decide

/-- C4 counterexample: the built statement's parameter list holds the raw
boolean `true`, not the coerced string `"true"` the claim requires at
flatten time. -/
theorem claim_coercion_counterexample :
    paramList (expandTemplate ["a", ""] [SqlValue.prim (Prim.bool true)])
      = [Prim.bool true] ∧
    coerceSpec (Prim.bool true) = Prim.str "true" ∧
    [Prim.bool true] ≠ [coerceSpec (Prim.bool true)] := by
  refine ⟨?_, rfl, by decide⟩
  rw [paramList_expandTemplate]
  simp [expandWalk, expandPairs]

/-- C4 (amended): no coercion is applied at flatten time — the built
statement's parameter list contains the input scalar slot values unchanged,
in depth-first order (nested-fragment slots contributing their own inlined
scalars); the conversions of the spec's coercion table are left to the
storage engine at execution time, as the source's own `Primitive` comment
documents. -/
theorem claim_flatten_passes_raw_values (ss : List String) (vs : List SqlValue)
    (hwf : wfT ss vs = true) :
    paramList (expandTemplate ss vs) = scalarsL vs := by
  rw [paramList_expandTemplate]
  exact (expandWalk_spec ss vs hwf).1

/-- Witness for the amended C4: a boolean slot passes through unchanged. -/
theorem claim_flatten_passes_raw_values_witness :
    paramList (expandTemplate ["a", ""] [SqlValue.prim (Prim.bool true)])
      = scalarsL [SqlValue.prim (Prim.bool true)] :=
  claim_flatten_passes_raw_values ["a", ""] [SqlValue.prim (Prim.bool true)]
    (by simp [wfT, wfL, wfV])

/-- C7: `sql.join([])` and `sql.list([])` build the never-matching `NULL`
sentinel (not empty parentheses) with zero placeholders and zero
parameters; on `k ≥ 1` values both build exactly `k` placeholders with
exactly `k - 1` occurrences of the separator `", "` (none for a singleton)
and carry the `k` values as parameters in input order. -/
theorem claim_join_list_shapes :
    (sqlJoin [] = { query := "NULL", values := none } ∧
     qmarks (sqlJoin []).query = 0 ∧ paramList (sqlJoin []) = [] ∧
     sqlList [] = { query := "(NULL)", values := some [] } ∧
     qmarks (sqlList []).query = 0 ∧ paramList (sqlList []) = []) ∧
    (∀ (v : Prim) (vs : List Prim),
       qmarks (sqlJoin (v :: vs)).query = vs.length + 1 ∧
       sepCount (sqlJoin (v :: vs)).query = vs.length ∧
       paramList (sqlJoin (v :: vs)) = v :: vs ∧
       qmarks (sqlList (v :: vs)).query = vs.length + 1 ∧
       sepCount (sqlList (v :: vs)).query = vs.length ∧
       paramList (sqlList (v :: vs)) = v :: vs) := by
  constructor
  · decide
  · intro v vs
    refine ⟨?_, ?_, ?_, ?_, ?_, ?_⟩
    · rw [sqlJoin_cons]
      simp [qmarks_append, qmarks_empty, qmarks_joinTail, data_empty]
    · rw [sqlJoin_cons]
      simp [sepCount, String.data_append, data_empty, joinTailStr_data, countAt_jtChars]
      decide
    · rw [sqlJoin_cons]; rfl
    · rw [sqlList_cons]
      simp [qmarks_append, qmarks_joinTail]
      decide
    · rw [sqlList_cons]
      simp [sepCount, String.data_append, data_lparen, joinTailStr_data, countAt_jtChars,
        countAt, leadsWith]
    · rw [sqlList_cons]; rfl

end SqlTag

/-! Supporting lemmas about the migration engine. -/

namespace DbWrapper

theorem ensureTable_hasTable (st : MetaStore) : (ensureTable st).hasTable = true := by
  by_cases h : st.hasTable <;> simp [ensureTable, h]

theorem ensureTable_idem (st : MetaStore) : ensureTable (ensureTable st) = ensureTable st := by
  by_cases h : st.hasTable <;> simp [ensureTable, h]

theorem runFrom_stop (versions : List Step) (st : MetaStore) (v : Nat)
    (h : ¬ v < versions.length) : runFrom versions st v = ([], st, none) := by
  rw [runFrom]
  simp [h]

theorem runFrom_success (versions : List Step) (v : Nat) (st : MetaStore)
    (hok : ∀ s ∈ versions.drop v, stepOk s = true) :
    runFrom versions st v =
      (stepsTrace (versions.drop v) v,
       if v < versions.length then
         { hasTable := st.hasTable, row := some (MetaValue.num versions.length) }
       else st,
       none) := by
  by_cases h : v < versions.length
  · have hdrop : versions.drop v = versions[v] :: versions.drop (v + 1) :=
      List.drop_eq_getElem_cons h
    have hs : stepOk versions[v] = true :=
      hok _ (by rw [hdrop]; exact List.mem_cons_self _ _)
    have ih := runFrom_success versions (v + 1) (persistVersion st (v + 1))
      (fun s hsmem => hok s (by rw [hdrop]; exact List.mem_cons_of_mem _ hsmem))
    rw [runFrom, dif_pos h]
    simp only [List.get_eq_getElem]
    cases hbm : versions[v].beforeMigrate with
    | none =>
        cases hmg : versions[v].migrate with
        | fail e => rw [stepOk, hbm, hmg] at hs; simp at hs
        | ok =>
            simp only [hbm, hmg, ih]
            rw [hdrop]
            simp only [stepsTrace, stepTrace, hbm]
            by_cases h2 : v + 1 < versions.length
            · simp [h, h2, persistVersion]
            · have hv2 : v + 1 = versions.length := by omega
              simp [h, h2, persistVersion, hv2]
    | some hr =>
        cases hr with
        | fail e => rw [stepOk, hbm] at hs; simp at hs
        | ok =>
            cases hmg : versions[v].migrate with
            | fail e => rw [stepOk, hbm, hmg] at hs; simp at hs
            | ok =>
                simp only [hbm, hmg, ih]
                rw [hdrop]
                simp only [stepsTrace, stepTrace, hbm]
                by_cases h2 : v + 1 < versions.length
                · simp [h, h2, persistVersion]
                · have hv2 : v + 1 = versions.length := by omega
                  simp [h, h2, persistVersion, hv2]
  · have hd : versions.drop v = [] := List.drop_eq_nil_of_le (by omega)
    rw [runFrom_stop versions st v h, hd]
    simp [stepsTrace, h]
termination_by versions.length - v

theorem runFrom_fail (versions : List Step) (good : List Step) :
    ∀ (v : Nat) (st : MetaStore) (bad : Step) (after : List Step) (e : String),
    versions.drop v = good ++ bad :: after →
    (∀ s ∈ good, stepOk s = true) →
    stepFails bad e →
    runFrom versions st v =
      (stepsTrace good v ++ failTrace bad,
       if good = [] then st
       else { hasTable := st.hasTable, row := some (MetaValue.num (v + good.length)) },
       some e) := by
  induction good with
  | nil =>
      intro v st bad after e hdrop hgood hbad
      have h : v < versions.length := by
        by_contra hc
        have hnil : versions.drop v = [] := List.drop_eq_nil_of_le (by omega)
        rw [hnil] at hdrop
        simp at hdrop
      have hcons := List.drop_eq_getElem_cons h
      rw [hdrop] at hcons
      simp only [List.nil_append] at hcons
      have hv : versions[v] = bad := by
        injection hcons.symm with h1 h2
      rw [runFrom, dif_pos h]
      simp only [List.get_eq_getElem, hv]
      rcases hbad with hb | ⟨hp, hm⟩
      · simp [stepsTrace, failTrace, hb]
      · cases hbm : bad.beforeMigrate with
        | none =>
            simp [stepsTrace, failTrace, hbm, hm]
        | some hr =>
            cases hr with
            | fail e2 =>
                simp [hookPasses, hbm] at hp
            | ok =>
                simp [stepsTrace, failTrace, hbm, hm]
  | cons g rest ih =>
      intro v st bad after e hdrop hgood hbad
      have h : v < versions.length := by
        by_contra hc
        have hnil : versions.drop v = [] := List.drop_eq_nil_of_le (by omega)
        rw [hnil] at hdrop
        simp at hdrop
      have hcons := List.drop_eq_getElem_cons h
      rw [hdrop] at hcons
      simp only [List.cons_append] at hcons
      have hv : versions[v] = g := by
        injection hcons.symm with h1 h2
      have hdrop2 : versions.drop (v + 1) = rest ++ bad :: after := by
        injection hcons with h1 h2
        exact h2.symm
      have hsOk : stepOk g = true := hgood g (List.mem_cons_self _ _)
      have ihv := ih (v + 1) (persistVersion st (v + 1)) bad after e hdrop2
        (fun s hsmem => hgood s (List.mem_cons_of_mem _ hsmem)) hbad
      rw [runFrom, dif_pos h]
      simp only [List.get_eq_getElem, hv]
      cases hbm : g.beforeMigrate with
      | none =>
          cases hmg : g.migrate with
          | fail e2 => rw [stepOk, hbm, hmg] at hsOk; simp at hsOk
          | ok =>
              simp only [hmg, ihv]
              simp only [stepsTrace, stepTrace, hbm]
              by_cases h2 : rest = []
              · simp [h2, persistVersion, stepsTrace]
              · simp [h2, persistVersion, stepsTrace]
                omega
      | some hr =>
          cases hr with
          | fail e2 => rw [stepOk, hbm] at hsOk; simp at hsOk
          | ok =>
              cases hmg : g.migrate with
              | fail e2 => rw [stepOk, hbm, hmg] at hsOk; simp at hsOk
              | ok =>
                  simp only [hbm, hmg, ihv]
                  simp only [stepsTrace, stepTrace, hbm]
                  by_cases h2 : rest = []
                  · simp [h2, persistVersion, stepsTrace]
                  · simp [h2, persistVersion, stepsTrace]
                    omega

theorem runFrom_no_observer (versions : List Step) (v : Nat) (st : MetaStore)
    (p : List Step) : Event.beforeMigrationHook p ∉ (runFrom versions st v).1 := by
  by_cases h : v < versions.length
  · have ih := runFrom_no_observer versions (v + 1) (persistVersion st (v + 1)) p
    rw [runFrom, dif_pos h]
    simp only [List.get_eq_getElem]
    cases hbm : versions[v].beforeMigrate with
    | none =>
        cases hmg : versions[v].migrate with
        | fail e => simp [hbm, hmg]
        | ok => simp [hbm, hmg, List.mem_cons]; exact ih
    | some hr =>
        cases hr with
        | fail e => simp [hbm]
        | ok =>
            cases hmg : versions[v].migrate with
            | fail e => simp [hbm, hmg]
            | ok => simp [hbm, hmg, List.mem_cons]; exact ih
  · rw [runFrom_stop versions st v h]
    simp
termination_by versions.length - v

end DbWrapper

/-! Pattern-occurrence lemmas and the remaining claims. -/

namespace SqlTag

theorem leadsWith_self (p r : List Char) : leadsWith p (p ++ r) = true := by
  induction p with
  | nil => rfl
  | cons c cs ih => simp [leadsWith, ih]

theorem occursIn_here (pat post : List Char) : occursIn pat (pat ++ post) = true := by
  cases pat with
  | nil => cases post <;> simp [occursIn, leadsWith]
  | cons c cs =>
      have h := leadsWith_self (c :: cs) post
      simp only [List.cons_append] at h
      simp [occursIn, h]

theorem occursIn_within (pat pre post : List Char) :
    occursIn pat (pre ++ (pat ++ post)) = true := by
  induction pre with
  | nil => simpa using occursIn_here pat post
  | cons c pre ih => simp [occursIn, ih]

end SqlTag

namespace DbWrapper

theorem getSchemaVersion_fst (st : MetaStore) :
    (getSchemaVersion st).1 = ensureTable st := rfl

theorem getSchemaVersion_ensure (st : MetaStore) :
    (getSchemaVersion (ensureTable st)).2 = (getSchemaVersion st).2 := by
  simp [getSchemaVersion, ensureTable_idem]

theorem mapRows_ok_length (m : α → Except String β) :
    ∀ (rows : List α) (rows' : List β),
    mapRows m rows = Except.ok rows' → rows'.length = rows.length := by
  intro rows
  induction rows with
  | nil =>
      intro rows' h
      simp [mapRows] at h
      simp [← h]
  | cons r rest ih =>
      intro rows' h
      simp only [mapRows] at h
      cases hm : m r with
      | error e => rw [hm] at h; simp at h
      | ok r' =>
          rw [hm] at h
          cases hrest : mapRows m rest with
          | error e => rw [hrest] at h; simp at h
          | ok rs =>
              rw [hrest] at h
              simp at h
              rw [← h]
              simp [ih rs hrest]

/-- C2: starting from a readable persisted version `v ≤ N` (`N` the step
count) with hooks that do not raise, one `migrateDatabase` run executes
steps `v, v+1, …, N-1` strictly in ascending index order — for each step
its optional `beforeMigrate` hook (when present), then its `migrate` hook,
then the upsert persisting `index + 1` under `"schema_version"`, as the
event trace records — so a fully successful run ends with persisted
version `N`, and no step is attempted when `v = N`. -/
theorem claim_migration_run (st : MetaStore) (versions : List Step) (v : Nat)
    (hv : (getSchemaVersion st).2 = Except.ok v)
    (hle : v ≤ versions.length)
    (hok : ∀ s ∈ versions.drop v, stepOk s = true) :
    (v = versions.length → migrateDatabase st versions = ([], ensureTable st, none)) ∧
    (v < versions.length →
       migrateDatabase st versions =
         (Event.beforeMigrationHook (versions.drop v) :: stepsTrace (versions.drop v) v,
          { hasTable := true, row := some (MetaValue.num versions.length) }, none)) ∧
    (getSchemaVersion (migrateDatabase st versions).2.1).2 = Except.ok versions.length := by
  by_cases heq : v = versions.length
  · have hm : migrateDatabase st versions = ([], ensureTable st, none) := by
      simp [migrateDatabase, hv, heq, getSchemaVersion_fst]
    refine ⟨fun _ => hm, fun hlt => by omega, ?_⟩
    rw [hm]
    simp only [getSchemaVersion_ensure, hv, heq]
  · have hlt : v < versions.length := by omega
    have hrun := runFrom_success versions v (ensureTable st) hok
    have hm : migrateDatabase st versions =
        (Event.beforeMigrationHook (versions.drop v) :: stepsTrace (versions.drop v) v,
         { hasTable := true, row := some (MetaValue.num versions.length) }, none) := by
      simp [migrateDatabase, hv, heq, getSchemaVersion_fst, hrun, hlt, ensureTable_hasTable]
    refine ⟨fun h => by omega, fun _ => hm, ?_⟩
    rw [hm]
    simp [getSchemaVersion, ensureTable]

/-- C3 (amended): when a step's `beforeMigrate` or `migrate` hook raises,
the run aborts immediately — the trace holds the observer invocation, the
completed steps' traces and the failing step's partial trace only, with no
later hooks and no further persist — the persisted version remains exactly
the index of the last fully completed step (`v + good.length`), and the
surfaced error is the original hook error propagated unmodified, with no
step-name/target-version annotation. -/
theorem claim_migration_failure (st : MetaStore) (versions : List Step) (v : Nat)
    (good : List Step) (bad : Step) (after : List Step) (e : String)
    (hv : (getSchemaVersion st).2 = Except.ok v)
    (hdrop : versions.drop v = good ++ bad :: after)
    (hgood : ∀ s ∈ good, stepOk s = true)
    (hbad : stepFails bad e) :
    migrateDatabase st versions =
      (Event.beforeMigrationHook (versions.drop v) :: (stepsTrace good v ++ failTrace bad),
       if good = [] then ensureTable st
       else { hasTable := true, row := some (MetaValue.num (v + good.length)) },
       some e) ∧
    (getSchemaVersion (migrateDatabase st versions).2.1).2 = Except.ok (v + good.length) := by
  have hlt : v < versions.length := by
    by_contra hc
    have hnil : versions.drop v = [] := List.drop_eq_nil_of_le (by omega)
    rw [hnil] at hdrop
    simp at hdrop
  have hne : ¬ v = versions.length := by omega
  have hrun := runFrom_fail versions good v (ensureTable st) bad after e hdrop hgood hbad
  have hm : migrateDatabase st versions =
      (Event.beforeMigrationHook (versions.drop v) :: (stepsTrace good v ++ failTrace bad),
       if good = [] then ensureTable st
       else { hasTable := true, row := some (MetaValue.num (v + good.length)) },
       some e) := by
    by_cases hg : good = []
    · simp [migrateDatabase, hv, hne, getSchemaVersion_fst, hrun, hg]
    · simp [migrateDatabase, hv, hne, getSchemaVersion_fst, hrun, hg, ensureTable_hasTable]
  refine ⟨hm, ?_⟩
  rw [hm]
  by_cases hg : good = []
  · simp only [hg, if_pos]
    simp only [getSchemaVersion_ensure, hv, hg, List.length_nil, Nat.add_zero]
  · simp [hg, getSchemaVersion, ensureTable]

/-- C8 (amended): the `beforeMigration` observer is invoked at most once,
with exactly the pending slice `versions.drop v`, and only as the first
event, before any step hook; when `v = N` the run returns early as a no-op
without invoking the observer; but when `v > N` (pending slice also empty)
the observer IS invoked once with the empty slice, while no step hooks run
and the state is unchanged beyond the table bootstrap. -/
theorem claim_observer_hook (st : MetaStore) (versions : List Step) (v : Nat)
    (hv : (getSchemaVersion st).2 = Except.ok v) :
    (v = versions.length → migrateDatabase st versions = ([], ensureTable st, none)) ∧
    (versions.length < v →
       migrateDatabase st versions
         = ([Event.beforeMigrationHook []], ensureTable st, none)) ∧
    (∀ p, Event.beforeMigrationHook p ∈ (migrateDatabase st versions).1 →
       p = versions.drop v ∧
       (migrateDatabase st versions).1.head?
         = some (Event.beforeMigrationHook (versions.drop v))) ∧
    (migrateDatabase st versions).1.countP (fun ev => isObserverEvent ev) ≤ 1 := by
  by_cases heq : v = versions.length
  · have hm : migrateDatabase st versions = ([], ensureTable st, none) := by
      simp [migrateDatabase, hv, heq, getSchemaVersion_fst]
    refine ⟨fun _ => hm, fun h => by omega, ?_, ?_⟩
    · intro p hp
      rw [hm] at hp
      simp at hp
    · rw [hm]
      simp
  · have hm : migrateDatabase st versions =
        (Event.beforeMigrationHook (versions.drop v) ::
           (runFrom versions (ensureTable st) v).1,
         (runFrom versions (ensureTable st) v).2) := by
      simp [migrateDatabase, hv, heq, getSchemaVersion_fst]
    refine ⟨fun h => by omega, ?_, ?_, ?_⟩
    · intro hgt
      have hstop := runFrom_stop versions (ensureTable st) v (by omega)
      have hnil : versions.drop v = [] := List.drop_eq_nil_of_le (by omega)
      rw [hm, hstop, hnil]
    · intro p hp
      rw [hm] at hp
      rcases List.mem_cons.mp hp with h1 | h2
      · refine ⟨by injection h1, ?_⟩
        rw [hm]
        rfl
      · exact absurd h2 (runFrom_no_observer versions v (ensureTable st) p)
    · rw [hm]
      simp only [List.countP_cons]
      have hz : (runFrom versions (ensureTable st) v).1.countP
          (fun ev => isObserverEvent ev) = 0 := by
        refine List.countP_eq_zero.mpr fun a ha => ?_
        cases a with
        | beforeMigrationHook p =>
            exact absurd ha (runFrom_no_observer versions v (ensureTable st) p)
        | beforeMigrateRun n => simp [isObserverEvent]
        | migrateRun n => simp [isObserverEvent]
        | persist n => simp [isObserverEvent]
      rw [hz]
      simp [isObserverEvent]

/-- C9 (amended): `getMigrationStatus` returns `currentVersion` (the
persisted version, defaulting to 0 when absent via `getSchemaVersion`),
`targetVersion` (the configured step count) and the pending slice from
`currentVersion`; its only storage effect is the idempotent lazy creation
of the `metadata` table — when the table already exists the storage state
is left entirely unchanged. -/
theorem claim_migration_status (st : MetaStore) (migrations : List Step) (v : Nat)
    (hv : (getSchemaVersion st).2 = Except.ok v) :
    getMigrationStatus st migrations =
      (ensureTable st,
       Except.ok { currentVersion := v, targetVersion := migrations.length,
                   migrationsToApply := migrations.drop v }) ∧
    (st.hasTable = true → ensureTable st = st) ∧
    ensureTable (ensureTable st) = ensureTable st := by
  refine ⟨?_, fun h => by simp [ensureTable, h], ensureTable_idem st⟩
  simp [getMigrationStatus, hv, getSchemaVersion_fst]

/-- C10: when the `"schema_version"` row holds a non-number value `w`,
`getSchemaVersion` — and therefore `getMigrationStatus` and a migration
run — raises the `Invalid schema_version` error, whose message contains
the offending value, instead of treating it as 0 or any other version;
the default 0 is used only when no row exists. -/
theorem claim_invalid_version (st : MetaStore) (w : MetaValue)
    (migrations versions : List Step)
    (hst : st.hasTable = true) (hrow : st.row = some w)
    (hnum : metaIsNum w = false) :
    getSchemaVersion st = (st, Except.error (invalidVersionMsg w)) ∧
    getMigrationStatus st migrations = (st, Except.error (invalidVersionMsg w)) ∧
    migrateDatabase st versions = ([], st, some (invalidVersionMsg w)) ∧
    SqlTag.occursIn (metaShow w).data (invalidVersionMsg w).data = true ∧
    (∀ st2 : MetaStore, (ensureTable st2).row = none →
       (getSchemaVersion st2).2 = Except.ok 0) := by
  have het : ensureTable st = st := by simp [ensureTable, hst]
  have hgs : getSchemaVersion st = (st, Except.error (invalidVersionMsg w)) := by
    cases w with
    | num n => simp [metaIsNum] at hnum
    | str s => simp [getSchemaVersion, het, hrow]
    | nullv => simp [getSchemaVersion, het, hrow]
    | blob d => simp [getSchemaVersion, het, hrow]
  refine ⟨hgs, ?_, ?_, ?_, ?_⟩
  · simp [getMigrationStatus, hgs]
  · simp [migrateDatabase, hgs]
  · have h := SqlTag.occursIn_within (metaShow w).data
      "Invalid schema_version: ".data ((" (" ++ metaTypeof w ++ ")").data)
    simpa [invalidVersionMsg, String.data_append, List.append_assoc] using h
  · intro st2 h2
    simp [getSchemaVersion, h2]

/-- C6: for every raw row list `R` (no row mapper attached): `queryOne`
returns `R[0]` iff `|R| = 1` and otherwise fails stating expected versus
actual count; `queryNoneOrOne` returns `null` on empty, `R[0]` on one row,
and fails on two or more; `queryNone` returns nothing and fails on any
row; `queryMany` returns `R` unchanged, including empty. -/
theorem claim_cardinality_shapes {α : Type} (rows : List α) :
    queryOne none rows = (match rows with
      | [r] => Except.ok r
      | _ => Except.error ("Expected one row, got " ++ toString rows.length)) ∧
    queryNoneOrOne none rows = (match rows with
      | [] => Except.ok none
      | [r] => Except.ok (some r)
      | _ => Except.error ("Expected at most one row, got " ++ toString rows.length)) ∧
    queryNone none rows = (match rows with
      | [] => Except.ok ()
      | _ => Except.error ("Expected no rows, got " ++ toString rows.length)) ∧
    queryMany none rows = Except.ok rows := by
  rcases rows with _ | ⟨a, _ | ⟨b, l⟩⟩
  · refine ⟨rfl, rfl, rfl, rfl⟩
  · refine ⟨rfl, ?_, rfl, rfl⟩
    simp [queryNoneOrOne, queryCommon]
  · refine ⟨rfl, ?_, ?_, rfl⟩
    · simp [queryNoneOrOne, queryCommon]
    · simp [queryNone, queryCommon]

/-- C5 (amended): the row mapper is applied element-wise inside the shared
query path BEFORE the cardinality check; since mapping preserves the row
count, when every mapper application succeeds the cardinality failures of
all shapes still report the raw row count of `R`; but the mapper does run
even when the cardinality check then fails (and a raising mapper preempts
the cardinality error, as the counterexample shows). -/
theorem claim_mapper_before_cardinality {α : Type} (m : α → Except String α)
    (rows rows' : List α) (h : mapRows m rows = Except.ok rows') :
    rows'.length = rows.length ∧
    queryMany (some m) rows = Except.ok rows' ∧
    (rows.length ≠ 1 →
       queryOne (some m) rows
         = Except.error ("Expected one row, got " ++ toString rows.length)) ∧
    (1 < rows.length →
       queryNoneOrOne (some m) rows
         = Except.error ("Expected at most one row, got " ++ toString rows.length)) ∧
    (0 < rows.length →
       queryNone (some m) rows
         = Except.error ("Expected no rows, got " ++ toString rows.length)) := by
  have hlen := mapRows_ok_length m rows rows' h
  refine ⟨hlen, by simp [queryMany, queryCommon, h], ?_, ?_, ?_⟩
  · intro h1
    simp only [queryOne, queryCommon, h]
    rw [← hlen]
    rcases rows' with _ | ⟨a, _ | ⟨b, l⟩⟩
    · rfl
    · exfalso
      have h2 : (1 : Nat) = rows.length := by simpa using hlen
      exact h1 h2.symm
    · rfl
  · intro h1
    simp only [queryNoneOrOne, queryCommon, h]
    rw [← hlen, if_pos (by omega)]
  · intro h1
    simp only [queryNone, queryCommon, h]
    rw [← hlen, if_pos (by omega)]

/-- Witness for C2: two succeeding steps from version 0 run in order and
leave persisted version 2. -/
theorem claim_migration_run_witness :
    migrateDatabase ⟨true, some (MetaValue.num 0)⟩
        [⟨"one", none, HookResult.ok⟩, ⟨"two", some HookResult.ok, HookResult.ok⟩]
      = (Event.beforeMigrationHook
            [⟨"one", none, HookResult.ok⟩, ⟨"two", some HookResult.ok, HookResult.ok⟩] ::
          stepsTrace [⟨"one", none, HookResult.ok⟩,
            ⟨"two", some HookResult.ok, HookResult.ok⟩] 0,
         { hasTable := true, row := some (MetaValue.num 2) }, none) ∧
    (getSchemaVersion (migrateDatabase ⟨true, some (MetaValue.num 0)⟩
        [⟨"one", none, HookResult.ok⟩,
         ⟨"two", some HookResult.ok, HookResult.ok⟩]).2.1).2 = Except.ok 2 := by
  have h := claim_migration_run ⟨true, some (MetaValue.num 0)⟩
    [⟨"one", none, HookResult.ok⟩, ⟨"two", some HookResult.ok, HookResult.ok⟩] 0
    rfl (by decide) (by decide)
  exact ⟨h.2.1 (by decide), h.2.2⟩

/-- Witness for the amended C3: step 2 raising `"boom"` leaves persisted
version 1 and surfaces exactly `"boom"`. -/
theorem claim_migration_failure_witness :
    migrateDatabase ⟨true, some (MetaValue.num 0)⟩
        [⟨"one", none, HookResult.ok⟩, ⟨"two", none, HookResult.fail "boom"⟩]
      = (Event.beforeMigrationHook
            [⟨"one", none, HookResult.ok⟩, ⟨"two", none, HookResult.fail "boom"⟩] ::
          (stepsTrace [⟨"one", none, HookResult.ok⟩] 0 ++
            failTrace ⟨"two", none, HookResult.fail "boom"⟩),
         { hasTable := true, row := some (MetaValue.num 1) }, some "boom") ∧
    (getSchemaVersion (migrateDatabase ⟨true, some (MetaValue.num 0)⟩
        [⟨"one", none, HookResult.ok⟩,
         ⟨"two", none, HookResult.fail "boom"⟩]).2.1).2 = Except.ok 1 := by
  have h := claim_migration_failure ⟨true, some (MetaValue.num 0)⟩
    [⟨"one", none, HookResult.ok⟩, ⟨"two", none, HookResult.fail "boom"⟩] 0
    [⟨"one", none, HookResult.ok⟩] ⟨"two", none, HookResult.fail "boom"⟩ [] "boom"
    rfl (by decide) (by decide) (Or.inr ⟨rfl, rfl⟩)
  refine ⟨?_, h.2⟩
  have h1 := h.1
  simp only [List.length_cons, List.length_nil] at h1
  simpa using h1

/-- C3 counterexample: with step `"badstep"` raising `"boom"`, the surfaced
error is exactly the raw `"boom"`, which mentions neither the failing
step's name nor its target version 2 — the claim's annotation does not
exist in the code (`migrateDatabase` has no wrapping of hook errors). -/
theorem claim_migration_failure_counterexample :
    migrateDatabase ⟨true, some (MetaValue.num 0)⟩
        [⟨"stepA", none, HookResult.ok⟩, ⟨"badstep", none, HookResult.fail "boom"⟩]
      = ([Event.beforeMigrationHook
            [⟨"stepA", none, HookResult.ok⟩, ⟨"badstep", none, HookResult.fail "boom"⟩],
          Event.migrateRun "stepA", Event.persist 1, Event.migrateRun "badstep"],
         ⟨true, some (MetaValue.num 1)⟩, some "boom") ∧
    SqlTag.occursIn "badstep".data "boom".data = false ∧
    SqlTag.occursIn "2".data "boom".data = false := by
  refine ⟨?_, by decide, by decide⟩
  have h := runFrom_fail
    [⟨"stepA", none, HookResult.ok⟩, ⟨"badstep", none, HookResult.fail "boom"⟩]
    [⟨"stepA", none, HookResult.ok⟩] 0 ⟨true, some (MetaValue.num 0)⟩
    ⟨"badstep", none, HookResult.fail "boom"⟩ [] "boom"
    (by decide) (by decide) (Or.inr ⟨rfl, rfl⟩)
  simp [migrateDatabase, getSchemaVersion, ensureTable, h, stepsTrace, stepTrace, failTrace]

/-- Witness for the amended C8 at persisted version 3 with no configured
steps. -/
theorem claim_observer_hook_witness :
    migrateDatabase ⟨true, some (MetaValue.num 3)⟩ ([] : List Step)
      = ([Event.beforeMigrationHook []], ensureTable ⟨true, some (MetaValue.num 3)⟩, none) ∧
    (migrateDatabase ⟨true, some (MetaValue.num 3)⟩ ([] : List Step)).1.countP
        (fun ev => isObserverEvent ev) ≤ 1 := by
  have h := claim_observer_hook ⟨true, some (MetaValue.num 3)⟩ ([] : List Step) 3 rfl
  exact ⟨h.2.1 (by decide), h.2.2.2⟩

/-- C8 counterexample: at persisted version 1 with zero configured steps
the pending slice is empty, yet the run invokes the observer hook once
(with the empty slice) instead of being a complete no-op — the claim's
"the observer hook is never invoked whenever the pending slice is empty"
fails for `current > N`. -/
theorem claim_observer_hook_counterexample :
    migrateDatabase ⟨true, some (MetaValue.num 1)⟩ ([] : List Step)
      = ([Event.beforeMigrationHook []], ⟨true, some (MetaValue.num 1)⟩, none) ∧
    ([] : List Step).drop 1 = [] := by
  refine ⟨?_, rfl⟩
  have h := runFrom_stop ([] : List Step) ⟨true, some (MetaValue.num 1)⟩ 1 (by decide)
  simp [migrateDatabase, getSchemaVersion, ensureTable, h]

/-- Witness for the amended C9 on an existing table at version 1 of 2. -/
theorem claim_migration_status_witness :
    getMigrationStatus ⟨true, some (MetaValue.num 1)⟩
        [⟨"one", none, HookResult.ok⟩, ⟨"two", none, HookResult.ok⟩]
      = (⟨true, some (MetaValue.num 1)⟩,
         Except.ok { currentVersion := 1, targetVersion := 2,
                     migrationsToApply := [⟨"two", none, HookResult.ok⟩] }) ∧
    ensureTable ⟨true, some (MetaValue.num 1)⟩ = ⟨true, some (MetaValue.num 1)⟩ := by
  have h := claim_migration_status ⟨true, some (MetaValue.num 1)⟩
    [⟨"one", none, HookResult.ok⟩, ⟨"two", none, HookResult.ok⟩] 1 rfl
  have h2 := h.2.1 rfl
  refine ⟨?_, h2⟩
  have h1 := h.1
  rw [h2] at h1
  simpa using h1

/-- C9 counterexample: on a storage state without the `metadata` table,
`getMigrationStatus` creates the table — the resulting storage state
differs from the initial one, so the read is not free of side effects. -/
theorem claim_migration_status_counterexample :
    getMigrationStatus ⟨false, none⟩ ([] : List Step)
      = (⟨true, none⟩,
         Except.ok { currentVersion := 0, targetVersion := 0, migrationsToApply := [] }) ∧
    (⟨true, none⟩ : MetaStore) ≠ ⟨false, none⟩ := ⟨rfl, by decide⟩

/-- Witness for C10 with the stored string `"v2"`. -/
theorem claim_invalid_version_witness :
    getSchemaVersion ⟨true, some (MetaValue.str "v2")⟩
      = (⟨true, some (MetaValue.str "v2")⟩,
         Except.error (invalidVersionMsg (MetaValue.str "v2"))) ∧
    getMigrationStatus ⟨true, some (MetaValue.str "v2")⟩ ([] : List Step)
      = (⟨true, some (MetaValue.str "v2")⟩,
         Except.error (invalidVersionMsg (MetaValue.str "v2"))) ∧
    migrateDatabase ⟨true, some (MetaValue.str "v2")⟩ ([] : List Step)
      = ([], ⟨true, some (MetaValue.str "v2")⟩,
         some (invalidVersionMsg (MetaValue.str "v2"))) ∧
    SqlTag.occursIn (metaShow (MetaValue.str "v2")).data
        (invalidVersionMsg (MetaValue.str "v2")).data = true := by
  have h := claim_invalid_version ⟨true, some (MetaValue.str "v2")⟩ (MetaValue.str "v2")
    ([] : List Step) ([] : List Step) rfl rfl rfl
  exact ⟨h.1, h.2.1, h.2.2.1, h.2.2.2.1⟩

/-- C5 counterexample: with two raw rows (a failing cardinality) and a
raising mapper, `queryOne` surfaces the mapper's error — the mapper ran
before the cardinality check — whereas the spec's check-first ordering
(`queryOneSpecOrder`) would surface the cardinality error. -/
theorem claim_mapper_order_counterexample :
    queryOne (some fun _ => (Except.error "mapper boom" : Except String Nat)) [0, 1]
      = Except.error "mapper boom" ∧
    queryOneSpecOrder (some fun _ => (Except.error "mapper boom" : Except String Nat)) [0, 1]
      = Except.error "Expected one row, got 2" ∧
    ("mapper boom" : String) ≠ "Expected one row, got 2" := by
  refine ⟨rfl, rfl, by decide⟩

/-- Witness for the amended C5: a total mapper on two rows still yields a
cardinality error stating the raw count. -/
theorem claim_mapper_before_cardinality_witness :
    ([6, 7] : List Nat).length = ([5, 6] : List Nat).length ∧
    queryMany (some fun n => (Except.ok (n + 1) : Except String Nat)) [5, 6]
      = Except.ok [6, 7] ∧
    queryOne (some fun n => (Except.ok (n + 1) : Except String Nat)) [5, 6]
      = Except.error ("Expected one row, got " ++ toString ([5, 6] : List Nat).length) := by
  have h := claim_mapper_before_cardinality
    (fun n => (Except.ok (n + 1) : Except String Nat)) [5, 6] [6, 7] rfl
  exact ⟨h.1, h.2.1, h.2.2.1 (by decide)⟩

end DbWrapper
